import Mathlib

/-!
Shallow embedding of `tuf-on-ci-delegate`
(`src/signer/tuf_on_ci_sign/delegate.py`).

Strings are modelled as `List Char`.  Interactive `click` prompts are
modelled as functions over an explicit list of candidate user inputs:
`none` stands for an empty line (the prompt then substitutes its default),
`some v` for a typed value.  Following click 8.x semantics, the default is
itself passed through the prompt's validation (`value_proc` / type range
check), and any value failing validation causes a re-prompt, i.e. the next
candidate is consulted; an exhausted candidate list yields `none` (the
prompt would still be waiting for input).
-/

/-- The ASCII whitespace characters stripped by Python `str.strip()`:
space, tab, newline, carriage return, vertical tab, form feed. -/
def isPySpace (c : Char) : Bool :=
  c = ' ' || c = '\t' || c = '\n' || c = '\r' || c.toNat = 11 || c.toNat = 12

/-- The characters stripped by `response.strip("[]")` in `verify_signers`. -/
def isBracket (c : Char) : Bool :=
  c = '[' || c = ']'

/-- Python `s.strip(chars)` / `s.strip()`: remove the longest run of
characters satisfying `p` from both ends of the string. -/
def pyStrip (p : Char → Bool) (s : List Char) : List Char :=
  ((s.dropWhile p).reverse.dropWhile p).reverse

/-- Python `response.split(",")`: split at every comma, keeping empty
pieces (`"".split(",") = [""]`). -/
def splitComma : List Char → List (List Char)
  | [] => [[]]
  | c :: cs =>
    if c = ',' then [] :: splitComma cs
    else
      match splitComma cs with
      | [] => [[c]]
      | t :: ts => (c :: t) :: ts

/-- The character class `[0-9a-zA-Z\-]` of `username_re`
(`delegate.py` line 49), stated on code points. -/
def isUserChar (c : Char) : Bool :=
  (48 ≤ c.toNat && c.toNat ≤ 57) ||      -- 0-9
  (97 ≤ c.toNat && c.toNat ≤ 122) ||     -- a-z
  (65 ≤ c.toNat && c.toNat ≤ 90) ||      -- A-Z
  c = '-'

/-- A full match of `\@[0-9a-zA-Z\-]+` against the whole string. -/
def usernameBody : List Char → Bool
  | [] => false
  | c :: rest => c = '@' && !rest.isEmpty && rest.all isUserChar

/-- Python `re.match(username_re, s)` with pattern `^\@[0-9a-zA-Z\-]+$`:
`$` also matches just before a trailing newline, so the pattern accepts
the body or the body followed by one `'\n'`. -/
def reMatchUsername (s : List Char) : Bool :=
  usernameBody s ||
    (match s.getLast? with
     | some c => c = '\n' && usernameBody (s.dropLast)
     | none => false)

/-- One iteration of the `for s in response.split(",")` loop body of
`verify_signers` (`delegate.py` lines 59-66): strip whitespace, prepend
`'@'` when absent, then test against `username_re`; a failed match raises
`click.BadParameter` (modelled as `none`). -/
def checkSigner (s0 : List Char) : Option (List Char) :=
  let s1 := pyStrip isPySpace s0
  let s2 := if s1.head? = some '@' then s1 else '@' :: s1
  if reMatchUsername s2 then some s2 else none

/-- The accumulation loop of `verify_signers`: validate every piece in
order, aborting on the first `BadParameter`. -/
def checkAll : List (List Char) → Option (List (List Char))
  | [] => some []
  | p :: ps => do
    let s ← checkSigner p
    let rest ← checkAll ps
    pure (s :: rest)

/-- `verify_signers` (`delegate.py` lines 51-68): strip surrounding
brackets, reject an empty response, then split on commas and validate
each entry.  `none` models a raised `click.BadParameter`. -/
def verify_signers (response : List Char) : Option (List (List Char)) :=
  let r := pyStrip isBracket response
  if r.isEmpty then none
  else checkAll (splitComma r)

example : verify_signers "[alice, bob]".data = some ["@alice".data, "@bob".data] := by decide
example : verify_signers "@a-1,b".data = some ["@a-1".data, "@b".data] := by decide
example : verify_signers "bob!".data = none := by decide
example : verify_signers "".data = none := by decide
example : verify_signers ",".data = none := by decide

/-- Python `", ".join(signers)`, the string form in which the editor
displays the signer list and offers it as the prompt default. -/
def joinCommaSpace : List (List Char) → List Char
  | [] => []
  | [a] => a
  | a :: b :: rest => a ++ ',' :: ' ' :: joinCommaSpace (b :: rest)

/-- Modelled from the spec: the `OfflineConfig` dataclass lives in
`tuf_on_ci_sign._signer_repository`, outside the sources at hand; its
fields are those used by `delegate.py` (constructor call
`OfflineConfig([user], 1, 365, 60)` and attribute accesses), and it has
dataclass value semantics (structural equality), which §9 of the spec
requires for change detection. -/
structure OfflineConfig where
  signers : List (List Char)
  threshold : Int
  expiry_period : Int
  signing_period : Int
deriving DecidableEq

/-- `click.prompt` with `type=click.IntRange(lo, hi)` and a default: an
empty line substitutes the default, every candidate (the default
included) is run through the range check, and an out-of-range value
re-prompts.  `none` when the input list is exhausted. -/
def promptIntRange (lo hi default : Int) : List (Option Int) → Option Int
  | [] => none
  | i :: rest =>
    let v := i.getD default
    if lo ≤ v && v ≤ hi then some v else promptIntRange lo hi default rest

/-- `click.prompt` with `type=int` and a default: an empty line
substitutes the default; any integer is accepted, with no range or sign
check (lines that do not parse as integers simply re-prompt and are not
modelled). -/
def promptInt (default : Int) : List (Option Int) → Option Int
  | [] => none
  | i :: _ => some (i.getD default)

/-- `click.prompt` with `value_proc=verify_signers` and default
`", ".join(config.signers)`: an empty line substitutes the default
string, each candidate line is run through `verify_signers`, and a
`BadParameter` re-prompts without touching any state. -/
def promptSigners (default : List Char) :
    List (Option (List Char)) → Option (List (List Char))
  | [] => none
  | i :: rest =>
    match verify_signers (i.getD default) with
    | some l => some l
    | none => promptSigners default rest

/-- One pass through the menu loop of `_get_offline_input`
(`delegate.py` lines 70-113), i.e. one valid non-zero menu choice with
the user inputs fed to its sub-prompts.  Choice `0` ends the loop and is
represented by the end of the action list. -/
inductive OfflineAction where
  | editSigners (sIn : List (Option (List Char))) (tIn : List (Option Int))
  | editPeriods (eIn : List (Option Int)) (gIn : List (Option Int))

/-- The body of the `_get_offline_input` menu loop for one action:
choice 1 re-prompts the signer list (defaulting to the current one) and
then either forces `threshold = 1` for a single signer or prompts in
`IntRange(1, len(signers))` with the previous threshold as default;
choice 2 prompts the two period fields with `type=int`. -/
def applyOffline (c : OfflineConfig) : OfflineAction → Option OfflineConfig
  | .editSigners sIn tIn => do
    let l ← promptSigners (joinCommaSpace c.signers) sIn
    if l.length = 1 then
      pure { c with signers := l, threshold := 1 }
    else do
      let t ← promptIntRange 1 (l.length : Int) c.threshold tIn
      pure { c with signers := l, threshold := t }
  | .editPeriods eIn gIn => do
    let e ← promptInt c.expiry_period eIn
    let g ← promptInt c.signing_period gIn
    pure { c with expiry_period := e, signing_period := g }

/-- `_get_offline_input` (`delegate.py` lines 43-115): deep-copy the
argument (value semantics), run the menu loop over the given actions,
return the edited copy. -/
def get_offline_input (c : OfflineConfig) (acts : List OfflineAction) :
    Option OfflineConfig :=
  acts.foldlM applyOffline c

/-- The editing session of `_get_offline_input` with the caller's object
kept distinct from the editor's working object: `caller` is the
`config` argument, `working` the result of `copy.deepcopy(config)` at
line 47.  Every assignment in the loop body targets the copy only. -/
structure OfflineSession where
  caller : OfflineConfig
  working : OfflineConfig
deriving DecidableEq

/-- One menu action inside the session: only `working` is updated. -/
def applyOfflineSession (s : OfflineSession) (a : OfflineAction) :
    Option OfflineSession := do
  let w ← applyOffline s.working a
  pure { s with working := w }

/-- `_get_offline_input` at the session level: the working copy starts
as a deep copy of the caller's config (so the two share no mutable
state), then the menu loop runs on the copy. -/
def get_offline_input_session (c : OfflineConfig) (acts : List OfflineAction) :
    Option OfflineSession :=
  acts.foldlM applyOfflineSession { caller := c, working := c }

example :
    get_offline_input ⟨["@a".data], 1, 365, 60⟩
      [.editSigners [some "@a, @b".data] [some 2]] =
      some ⟨["@a".data, "@b".data], 2, 365, 60⟩ := by decide
example :
    get_offline_input ⟨["@a".data, "@b".data], 2, 365, 60⟩
      [.editSigners [some "bob".data] [some 5]] =
      some ⟨["@bob".data], 1, 365, 60⟩ := by decide

/-- A key descriptor as handled by `delegate.py`: the securesystemslib
key fields plus the `x-tuf-on-ci-online-uri` locator stored among the
unrecognized fields. -/
structure OnlineKey where
  keyid : String
  keytype : String
  scheme : String
  keyval : List (String × String)
  onlineUri : String
deriving DecidableEq

/-- Modelled from the spec: the `OnlineConfig` dataclass lives in
`tuf_on_ci_sign._signer_repository`, outside the sources at hand; its
fields are those used by `delegate.py` (constructor call
`OnlineConfig(keys, 2, 1, expiry, signing)` and attribute accesses),
with dataclass value semantics. -/
structure OnlineConfig where
  keys : List OnlineKey
  timestamp_expiry : Int
  timestamp_signing : Int
  snapshot_expiry : Int
  snapshot_signing : Int
deriving DecidableEq

/-- `_sigstore_import` (`delegate.py` lines 128-142): build one
`SigstoreKey` per automation workflow, each with the fixed issuer, an
identity derived from the repository name, and locator `sigstore:`.
The repository name extracted from the git remote URL is a parameter. -/
def sigstore_import (repo : String) : List OnlineKey :=
  [("snapshot.yml", "abcd"), ("version-bumps.yml", "efgh")].map fun wk =>
    { keyid := wk.2
      keytype := "sigstore-oidc"
      scheme := "Fulcio"
      keyval := [("issuer", "https://token.actions.githubusercontent.com"),
                 ("identity", "https://github.com/" ++ repo ++
                   "/.github/workflows/" ++ wk.1 ++ "@refs/heads/main")]
      onlineUri := "sigstore:" }

/-- A validated choice in `_collect_online_keys` (`delegate.py` lines
195-239), together with the result the external Key Provider returns
for the cloud-import variants: `none` models an import failure
(`GCPSigner.import_` / `AzureSigner.import_` raising, turned into a
`click.ClickException`). -/
inductive OnlineKeyChoice where
  | sigstore
  | gcp (keyId : String) (importResult : Option (String × OnlineKey))
  | azure (vaultName keyName : String) (importResult : Option (String × OnlineKey))
  | localTestKey

/-- `_collect_online_keys`: every successful branch returns a list of
keys, each carrying its `x-tuf-on-ci-online-uri` locator; a cloud
failed cloud import raises `ClickException` (modelled as `none`),
aborting the run. -/
def collect_online_keys (pullRemoteRepo : String) :
    OnlineKeyChoice → Option (List OnlineKey)
  | .sigstore => some (sigstore_import pullRemoteRepo)
  | .gcp _ res =>
    match res with
    | some (uri, key) => some [{ key with onlineUri := uri }]
    | none => none
  | .azure _ _ res =>
    match res with
    | some (uri, key) => some [{ key with onlineUri := uri }]
    | none => none
  | .localTestKey =>
    some [{ keyid := "fa47289", keytype := "ed25519", scheme := "ed25519",
            keyval := [("public",
              "fa472895c9756c2b9bcd1440bf867d0fa5c4edee79e9792fa9822be3dd6fcbb3")],
            onlineUri := "envvar:LOCAL_TESTING_KEY" }]

/-- One pass through the `_get_online_input` menu loop (`delegate.py`
lines 148-190): configure the key source, the timestamp cadence or the
snapshot cadence. -/
inductive OnlineAction where
  | editKeys (choice : OnlineKeyChoice)
  | editTimestamp (eIn : List (Option Int)) (gIn : List (Option Int))
  | editSnapshot (eIn : List (Option Int)) (gIn : List (Option Int))

/-- The body of the `_get_online_input` menu loop for one action: key
reconfiguration replaces `keys` wholesale; the cadence prompts are
plain `type=int` prompts defaulting to the current values. -/
def applyOnline (repo : String) (c : OnlineConfig) :
    OnlineAction → Option OnlineConfig
  | .editKeys ch => do
    let ks ← collect_online_keys repo ch
    pure { c with keys := ks }
  | .editTimestamp eIn gIn => do
    let e ← promptInt c.timestamp_expiry eIn
    let g ← promptInt c.timestamp_signing gIn
    pure { c with timestamp_expiry := e, timestamp_signing := g }
  | .editSnapshot eIn gIn => do
    let e ← promptInt c.snapshot_expiry eIn
    let g ← promptInt c.snapshot_signing gIn
    pure { c with snapshot_expiry := e, snapshot_signing := g }

/-- `_get_online_input` (`delegate.py` lines 145-192): deep-copy the
argument, run the menu loop, return the edited copy. -/
def get_online_input (repo : String) (c : OnlineConfig)
    (acts : List OnlineAction) : Option OnlineConfig :=
  acts.foldlM (applyOnline repo) c

/-- The editing session of `_get_online_input`, keeping the caller's
object distinct from the `copy.deepcopy(config)` made at line 146. -/
structure OnlineSession where
  caller : OnlineConfig
  working : OnlineConfig
deriving DecidableEq

/-- One menu action inside the online session: only `working` moves. -/
def applyOnlineSession (repo : String) (s : OnlineSession) (a : OnlineAction) :
    Option OnlineSession := do
  let w ← applyOnline repo s.working a
  pure { s with working := w }

/-- `_get_online_input` at the session level. -/
def get_online_input_session (repo : String) (c : OnlineConfig)
    (acts : List OnlineAction) : Option OnlineSession :=
  acts.foldlM (applyOnlineSession repo) { caller := c, working := c }

/-- `_update_offline_role` (`delegate.py` lines 291-310), abstracted
over the pre-existing config: for a new role the editor starts from
`OfflineConfig([user], 1, 365, 60)` and the result is always written;
for an existing role an unchanged result short-circuits to
`(false, no write)`.  The second component is the config passed to
`repo.set_role_config`, when any. -/
def update_offline_role (existing : Option OfflineConfig) (user : List Char)
    (acts : List OfflineAction) : Option (Bool × Option OfflineConfig) :=
  match existing with
  | none => do
    let newC ← get_offline_input ⟨[user], 1, 365, 60⟩ acts
    pure (true, some newC)
  | some c => do
    let newC ← get_offline_input c acts
    if newC = c then pure (false, none)
    else pure (true, some newC)

/-- The externally visible operations issued by the tail of `delegate`
(`delegate.py` lines 338-373). -/
inductive Gop where
  | gitAdd (path : String)
  | gitCommit (msg : List Char)
  | signRole (role : List Char)
  | gitPush (remote : List Char) (event : List Char)
  | gitBranch (name : List Char)
  | echoNothing
deriving DecidableEq

/-- The first commit message (`delegate.py` lines 339-342): Python
truthiness of `role` makes both `None` and the empty string fall back
to the bootstrap message. -/
def commitMsg (role : Option (List Char)) : List Char :=
  match role with
  | some r =>
    if r.isEmpty then "Initial root and targets".data
    else "'".data ++ r ++ "' role/delegation change".data
  | none => "Initial root and targets".data

/-- The tail of `delegate` (`delegate.py` lines 338-373): when a change
was made, stage and commit the configuration; if any roles are
unsigned, sign each and stage and commit the signatures; finally either
push `HEAD` to the event branch on the push remote (after a
confirmation prompt) or create a local branch named after the event.
When nothing changed, only `"Nothing to do"` is echoed. -/
def delegate_finish (changed : Bool) (role : Option (List Char))
    (unsigned : List (List Char)) (push : Bool)
    (pushRemote event user : List Char) : List Gop :=
  if changed then
    [Gop.gitAdd "metadata/", Gop.gitCommit (commitMsg role)]
    ++ (if unsigned.isEmpty then []
        else unsigned.map Gop.signRole
          ++ [Gop.gitAdd "metadata/",
              Gop.gitCommit ("Signed by ".data ++ user)])
    ++ (if push then [Gop.gitPush pushRemote event]
        else [Gop.gitBranch event])
  else [Gop.echoNothing]

/-- The commit messages of a trace, in order. -/
def commitMsgs (t : List Gop) : List (List Char) :=
  t.filterMap fun op =>
    match op with
    | Gop.gitCommit m => some m
    | _ => none

/-- The pushes of a trace, in order. -/
def pushOps (t : List Gop) : List (List Char × List Char) :=
  t.filterMap fun op =>
    match op with
    | Gop.gitPush r e => some (r, e)
    | _ => none

/-- The local branch creations of a trace, in order. -/
def branchOps (t : List Gop) : List (List Char) :=
  t.filterMap fun op =>
    match op with
    | Gop.gitBranch n => some n
    | _ => none

/-- C1: Whenever a configuration change is made, the orchestrator issues
commits in a fixed two-phase order: a first commit containing only the
configuration change is always made, and a second commit containing only
the added signatures is made if and only if the set of unsigned roles was
non-empty after the configuration commit; the configuration commit always
precedes the signature commit. -/
theorem delegate_commit_two_phase (role : Option (List Char))
    (unsigned : List (List Char)) (push : Bool)
    (pushRemote event user : List Char) :
    commitMsgs (delegate_finish true role unsigned push pushRemote event user) =
      if unsigned.isEmpty then [commitMsg role]
      else [commitMsg role, "Signed by ".data ++ user] := by
  cases h : unsigned.isEmpty <;> cases push <;>
    simp [delegate_finish, commitMsgs, h, List.filterMap_append,
      List.filterMap_map, Function.comp]

/-- C6: When push is disabled, a local branch named after the signing
event is created and no remote push is performed; when push is enabled,
the commits are pushed to the remote's branch for the event name and no
local branch is created; the two outcomes never both happen in one run. -/
theorem push_xor_local_branch (role : Option (List Char))
    (unsigned : List (List Char)) (pushRemote event user : List Char) :
    (pushOps (delegate_finish true role unsigned true pushRemote event user)
        = [(pushRemote, event)]
      ∧ branchOps (delegate_finish true role unsigned true pushRemote event user)
        = [])
    ∧ (pushOps (delegate_finish true role unsigned false pushRemote event user)
        = []
      ∧ branchOps (delegate_finish true role unsigned false pushRemote event user)
        = [event])
    ∧ ∀ (changed push : Bool),
        pushOps (delegate_finish changed role unsigned push pushRemote event user)
          = []
        ∨ branchOps (delegate_finish changed role unsigned push pushRemote event user)
          = [] := by
  refine ⟨⟨?_, ?_⟩, ⟨?_, ?_⟩, ?_⟩
  · cases h : unsigned.isEmpty <;>
      simp [delegate_finish, pushOps, h, List.filterMap_append,
        List.filterMap_map, Function.comp]
  · cases h : unsigned.isEmpty <;>
      simp [delegate_finish, branchOps, h, List.filterMap_append,
        List.filterMap_map, Function.comp]
  · cases h : unsigned.isEmpty <;>
      simp [delegate_finish, pushOps, h, List.filterMap_append,
        List.filterMap_map, Function.comp]
  · cases h : unsigned.isEmpty <;>
      simp [delegate_finish, branchOps, h, List.filterMap_append,
        List.filterMap_map, Function.comp]
  · intro changed push
    cases changed with
    | false => exact Or.inl (by simp [delegate_finish, pushOps])
    | true =>
      cases push with
      | true =>
        exact Or.inr (by
          cases h : unsigned.isEmpty <;>
            simp [delegate_finish, branchOps, h, List.filterMap_append,
              List.filterMap_map, Function.comp])
      | false =>
        exact Or.inl (by
          cases h : unsigned.isEmpty <;>
            simp [delegate_finish, pushOps, h, List.filterMap_append,
              List.filterMap_map, Function.comp])

/-- C5: For every current config, running an editor and choosing
"continue" immediately (no sub-edits) returns a config structurally
equal to the input; in the active state the caller detects this
equality, reports "Nothing to do", and makes no configuration write, no
commit, no push, and no branch creation. -/
theorem noop_edit_nothing_to_do (c : OfflineConfig) (oc : OnlineConfig)
    (repo : String) (user : List Char) (role : Option (List Char))
    (unsigned : List (List Char)) (push : Bool)
    (pushRemote event : List Char) :
    get_offline_input c [] = some c
    ∧ get_online_input repo oc [] = some oc
    ∧ update_offline_role (some c) user [] = some (false, none)
    ∧ delegate_finish false role unsigned push pushRemote event user
        = [Gop.echoNothing] := by
  refine ⟨rfl, rfl, ?_, by simp [delegate_finish]⟩
  simp [update_offline_role, get_offline_input]

/-- Helper for C9: the caller's object survives any run of the offline
menu loop unchanged, because every step rewrites only the working copy. -/
theorem offline_session_caller_eq :
    ∀ (acts : List OfflineAction) (st s : OfflineSession),
      acts.foldlM applyOfflineSession st = some s → s.caller = st.caller := by
  intro acts
  induction acts with
  | nil =>
    intro st s h
    simp only [List.foldlM_nil] at h
    cases h
    rfl
  | cons a as ih =>
    intro st s h
    rw [List.foldlM_cons] at h
    cases ha : applyOfflineSession st a with
    | none => rw [ha] at h; simp at h
    | some st' =>
      rw [ha] at h
      simp only [Option.bind_eq_bind, Option.some_bind] at h
      have hcall : st'.caller = st.caller := by
        simp only [applyOfflineSession, Option.bind_eq_bind, bind] at ha
        cases hw : applyOffline st.working a with
        | none => rw [hw] at ha; simp at ha
        | some w =>
          rw [hw] at ha
          simp only [Option.some_bind, pure, Option.some.injEq] at ha
          cases ha
          rfl
      rw [ih st' s h, hcall]

/-- Helper for C9: same statement for the online menu loop. -/
theorem online_session_caller_eq (repo : String) :
    ∀ (acts : List OnlineAction) (st s : OnlineSession),
      acts.foldlM (applyOnlineSession repo) st = some s →
        s.caller = st.caller := by
  intro acts
  induction acts with
  | nil =>
    intro st s h
    simp only [List.foldlM_nil] at h
    cases h
    rfl
  | cons a as ih =>
    intro st s h
    rw [List.foldlM_cons] at h
    cases ha : applyOnlineSession repo st a with
    | none => rw [ha] at h; simp at h
    | some st' =>
      rw [ha] at h
      simp only [Option.bind_eq_bind, Option.some_bind] at h
      have hcall : st'.caller = st.caller := by
        simp only [applyOnlineSession, Option.bind_eq_bind, bind] at ha
        cases hw : applyOnline repo st.working a with
        | none => rw [hw] at ha; simp at ha
        | some w =>
          rw [hw] at ha
          simp only [Option.some_bind, pure, Option.some.injEq] at ha
          cases ha
          rfl
      rw [ih st' s h, hcall]

/-- C9: The offline and online config editors never mutate the config
passed in as `current`: the returned config is a deep copy, so after an
edit the original input object is unchanged in every field even when
the user performed sub-edits. -/
theorem editors_never_mutate_current (c : OfflineConfig) (oc : OnlineConfig)
    (repo : String) (acts : List OfflineAction) (oacts : List OnlineAction)
    (s : OfflineSession) (t : OnlineSession)
    (h1 : get_offline_input_session c acts = some s)
    (h2 : get_online_input_session repo oc oacts = some t) :
    s.caller = c ∧ t.caller = oc :=
  ⟨offline_session_caller_eq acts { caller := c, working := c } s h1,
   online_session_caller_eq repo oacts { caller := oc, working := oc } t h2⟩

/-- C9 witness: a concrete run of each editor with a real sub-edit. -/
theorem editors_never_mutate_current_witness :
    (⟨⟨["@a".data], 1, 365, 60⟩, ⟨["@a".data], 1, 30, 7⟩⟩ : OfflineSession).caller
        = ⟨["@a".data], 1, 365, 60⟩
    ∧ (⟨⟨[⟨"k", "t", "s", [], "u"⟩], 2, 1, 365, 60⟩,
        ⟨[⟨"k", "t", "s", [], "u"⟩], 3, 1, 365, 60⟩⟩ : OnlineSession).caller
        = ⟨[⟨"k", "t", "s", [], "u"⟩], 2, 1, 365, 60⟩ :=
  editors_never_mutate_current
    ⟨["@a".data], 1, 365, 60⟩ ⟨[⟨"k", "t", "s", [], "u"⟩], 2, 1, 365, 60⟩
    "r" [.editPeriods [some 30] [some 7]] [.editTimestamp [some 3] [none]]
    _ _ (by decide) (by decide)

/-- A value returned by an `IntRange(lo, hi)` prompt lies in the range:
out-of-range candidates (the substituted default included) re-prompt. -/
theorem promptIntRange_bounds (lo hi d : Int) :
    ∀ (ins : List (Option Int)) (v : Int),
      promptIntRange lo hi d ins = some v → lo ≤ v ∧ v ≤ hi := by
  intro ins
  induction ins with
  | nil => intro v h; simp [promptIntRange] at h
  | cons i rest ih =>
    intro v h
    rw [promptIntRange] at h
    split at h
    · cases h
      rename_i hcond
      simpa using hcond
    · exact ih v h

/-- One offline menu action preserves `1 ≤ threshold ≤ |signers|`. -/
theorem applyOffline_threshold (c c' : OfflineConfig) (a : OfflineAction)
    (h1 : 1 ≤ c.threshold) (h2 : c.threshold ≤ (c.signers.length : Int))
    (h : applyOffline c a = some c') :
    1 ≤ c'.threshold ∧ c'.threshold ≤ (c'.signers.length : Int) := by
  cases a with
  | editSigners sIn tIn =>
    simp only [applyOffline, Option.bind_eq_bind, bind] at h
    cases hs : promptSigners (joinCommaSpace c.signers) sIn with
    | none => rw [hs] at h; simp at h
    | some l =>
      rw [hs] at h
      simp only [Option.some_bind] at h
      by_cases hlen : l.length = 1
      · rw [if_pos hlen] at h
        cases h
        constructor
        · exact le_refl 1
        · simp [hlen]
      · rw [if_neg hlen] at h
        cases ht : promptIntRange 1 (l.length : Int) c.threshold tIn with
        | none => rw [ht] at h; simp at h
        | some t =>
          rw [ht] at h
          simp only [Option.some_bind, pure, Option.some.injEq] at h
          cases h
          exact promptIntRange_bounds 1 (l.length : Int) c.threshold tIn t ht
  | editPeriods eIn gIn =>
    simp only [applyOffline, Option.bind_eq_bind, bind] at h
    cases he : promptInt c.expiry_period eIn with
    | none => rw [he] at h; simp at h
    | some e =>
      rw [he] at h
      simp only [Option.some_bind] at h
      cases hg : promptInt c.signing_period gIn with
      | none => rw [hg] at h; simp at h
      | some g =>
        rw [hg] at h
        simp only [Option.some_bind, pure, Option.some.injEq] at h
        cases h
        exact ⟨h1, h2⟩

/-- C2: For every OfflineRoleConfig returned by the offline role config
editor, the threshold satisfies `1 ≤ threshold ≤ |signers|`: when the
signer list has more than one entry the user is prompted for an integer
in `[1, |signers|]` with the previous threshold as default, and the
result always lies within that range (including when the user accepts
the default after shrinking the signer list). -/
theorem offline_threshold_in_range :
    ∀ (acts : List OfflineAction) (c out : OfflineConfig),
      1 ≤ c.threshold → c.threshold ≤ (c.signers.length : Int) →
      get_offline_input c acts = some out →
      1 ≤ out.threshold ∧ out.threshold ≤ (out.signers.length : Int) := by
  intro acts
  induction acts with
  | nil =>
    intro c out h1 h2 h
    simp only [get_offline_input, List.foldlM_nil] at h
    cases h
    exact ⟨h1, h2⟩
  | cons a as ih =>
    intro c out h1 h2 h
    simp only [get_offline_input, List.foldlM_cons] at h
    cases ha : applyOffline c a with
    | none => rw [ha] at h; simp at h
    | some c' =>
      rw [ha] at h
      simp only [Option.bind_eq_bind, Option.some_bind] at h
      obtain ⟨h1', h2'⟩ := applyOffline_threshold c c' a h1 h2 ha
      exact ih c' out h1' h2' h

/-- C2 witness: shrinking the signer list from three entries to two and
then accepting the (now out-of-range) default threshold `3` re-prompts,
so the accepted threshold `2` is in range. -/
theorem offline_threshold_in_range_witness :
    1 ≤ (⟨["@a".data, "@b".data], 2, 365, 60⟩ : OfflineConfig).threshold
    ∧ (⟨["@a".data, "@b".data], 2, 365, 60⟩ : OfflineConfig).threshold
        ≤ ((⟨["@a".data, "@b".data], 2, 365, 60⟩ : OfflineConfig).signers.length : Int) :=
  offline_threshold_in_range
    [.editSigners [some "@a, @b".data] [none, some 2]]
    ⟨["@a".data, "@b".data, "@c".data], 3, 365, 60⟩
    ⟨["@a".data, "@b".data], 2, 365, 60⟩
    (by decide) (by decide) (by decide)

/-- C3: For every valid signer-list input with exactly one entry, the
offline role config editor sets the threshold to 1, regardless of the
prior threshold value and without prompting the user for a threshold
(the result does not depend on any threshold input). -/
theorem single_signer_forces_threshold_one (c : OfflineConfig)
    (sIn : List (Option (List Char))) (tIn tIn' : List (Option Int))
    (l : List (List Char))
    (hs : promptSigners (joinCommaSpace c.signers) sIn = some l)
    (hlen : l.length = 1) :
    applyOffline c (.editSigners sIn tIn)
      = some { c with signers := l, threshold := 1 }
    ∧ applyOffline c (.editSigners sIn tIn)
      = applyOffline c (.editSigners sIn tIn') := by
  constructor
  · simp only [applyOffline, Option.bind_eq_bind, bind, hs, Option.some_bind,
      if_pos hlen]
    rfl
  · simp only [applyOffline, Option.bind_eq_bind, bind, hs, Option.some_bind,
      if_pos hlen]

/-- C3 witness: prior threshold `7`, signer input `"bob"`, two distinct
threshold input streams — both give threshold 1. -/
theorem single_signer_forces_threshold_one_witness :
    (promptSigners
        (joinCommaSpace
          (⟨["@a".data, "@b".data], 7, 365, 60⟩ : OfflineConfig).signers)
        [some "bob".data] = some ["@bob".data])
    ∧ applyOffline ⟨["@a".data, "@b".data], 7, 365, 60⟩
        (.editSigners [some "bob".data] [some 5])
        = some ⟨["@bob".data], 1, 365, 60⟩ := by
  constructor
  · decide
  · exact (single_signer_forces_threshold_one
      ⟨["@a".data, "@b".data], 7, 365, 60⟩
      [some "bob".data] [some 5] [] ["@bob".data] (by decide) (by decide)).1

/-- The head surviving `dropWhile p` does not satisfy `p`. -/
theorem dropWhile_head_false {α : Type} (p : α → Bool) :
    ∀ (l : List α) (a : α), (l.dropWhile p).head? = some a → p a = false := by
  intro l
  induction l with
  | nil => intro a h; simp [List.dropWhile] at h
  | cons c cs ih =>
    intro a h
    by_cases hc : p c = true
    · rw [List.dropWhile_cons_of_pos hc] at h
      exact ih a h
    · rw [List.dropWhile_cons_of_neg hc] at h
      simp only [List.head?_cons, Option.some.injEq] at h
      subst h
      cases hpc : p c with
      | false => rfl
      | true => exact absurd hpc hc

/-- The last character of a Python-stripped string does not satisfy the
strip predicate. -/
theorem pyStrip_getLast_false (p : Char → Bool) (s : List Char) (a : Char)
    (h : (pyStrip p s).getLast? = some a) : p a = false := by
  unfold pyStrip at h
  rw [List.getLast?_reverse] at h
  exact dropWhile_head_false p _ a h

/-- When the string cannot end in a newline, the `$` of `username_re`
must match the true end of the string, so `re.match` success means a
full body match. -/
theorem reMatch_of_no_trailing_newline (s2 : List Char)
    (hlast : ∀ c, s2.getLast? = some c → c ≠ '\n')
    (hm : reMatchUsername s2 = true) : usernameBody s2 = true := by
  rw [reMatchUsername, Bool.or_eq_true] at hm
  rcases hm with hb | hnl
  · exact hb
  · exfalso
    cases hl : s2.getLast? with
    | none => rw [hl] at hnl; exact Bool.false_ne_true hnl
    | some c =>
      rw [hl] at hnl
      simp only [Bool.and_eq_true, decide_eq_true_eq] at hnl
      exact hlast c hl hnl.1

/-- Every entry accepted by the `verify_signers` loop body matches
`@[0-9a-zA-Z-]+` exactly (the trailing-newline escape of `$` cannot
fire, because the entry was whitespace-stripped first). -/
theorem checkSigner_username (s0 s : List Char) (h : checkSigner s0 = some s) :
    usernameBody s = true := by
  simp only [checkSigner] at h
  by_cases hh : (pyStrip isPySpace s0).head? = some '@'
  · rw [if_pos hh] at h
    split at h
    · rename_i hm
      cases h
      refine reMatch_of_no_trailing_newline _ ?_ hm
      intro c hl hc
      subst hc
      have := pyStrip_getLast_false isPySpace s0 '\n' hl
      simp [isPySpace] at this
    · exact absurd h (by simp)
  · rw [if_neg hh] at h
    split at h
    · rename_i hm
      cases h
      refine reMatch_of_no_trailing_newline _ ?_ hm
      intro c hl hc
      subst hc
      cases hs1 : pyStrip isPySpace s0 with
      | nil => rw [hs1] at hl; simp at hl
      | cons x xs =>
        rw [hs1, List.getLast?_cons_cons, ← hs1] at hl
        have := pyStrip_getLast_false isPySpace s0 '\n' hl
        simp [isPySpace] at this
    · exact absurd h (by simp)

/-- Every entry in a list accepted by the validation loop matches the
username pattern. -/
theorem checkAll_username :
    ∀ (ps : List (List Char)) (l : List (List Char)),
      checkAll ps = some l → l.all usernameBody = true := by
  intro ps
  induction ps with
  | nil =>
    intro l h
    simp only [checkAll] at h
    cases h
    rfl
  | cons p ps ih =>
    intro l h
    simp only [checkAll, Option.bind_eq_bind, bind] at h
    cases hp : checkSigner p with
    | none => rw [hp] at h; simp at h
    | some s =>
      rw [hp] at h
      simp only [Option.some_bind] at h
      cases hr : checkAll ps with
      | none => rw [hr] at h; simp at h
      | some rest =>
        rw [hr] at h
        simp only [Option.some_bind, pure, Option.some.injEq] at h
        cases h
        rw [List.all_cons, Bool.and_eq_true]
        exact ⟨checkSigner_username p s hp, ih rest hr⟩

/-- On a `BadParameter`, the prompt is simply re-issued: the rejected
candidate line is dropped from the stream without any other effect. -/
theorem promptSigners_skip_invalid (d bad : List Char)
    (rest : List (Option (List Char))) (h : verify_signers bad = none) :
    promptSigners d (some bad :: rest) = promptSigners d rest := by
  rw [promptSigners]
  simp only [Option.getD_some, h]

/-- C4: For every signer-list input string, each comma-separated entry
is normalized by prefixing a literal `@` if absent, and every accepted
entry matches the pattern `@[A-Za-z0-9-]+`; any entry failing the
pattern, or an empty list, is rejected with a validation error so the
prior signer list and threshold are preserved and the prompt is
re-issued (the error is never propagated to the caller). -/
theorem verify_signers_validation (response : List Char)
    (l : List (List Char)) (bad : List Char)
    (rest : List (Option (List Char))) (tIn : List (Option Int))
    (c : OfflineConfig)
    (h1 : verify_signers response = some l)
    (h2 : verify_signers bad = none) :
    l.all usernameBody = true
    ∧ applyOffline c (.editSigners (some bad :: rest) tIn)
        = applyOffline c (.editSigners rest tIn)
    ∧ verify_signers [] = none := by
  refine ⟨?_, ?_, rfl⟩
  · simp only [verify_signers] at h1
    split at h1
    · exact absurd h1 (by simp)
    · exact checkAll_username _ l h1
  · simp only [applyOffline]
    rw [promptSigners_skip_invalid _ bad rest h2]

/-- C4 witness: `"[alice, bob]"` is accepted with both entries matching
the pattern; `"bob!"` is rejected and the failed attempt leaves the
prompt behaviour (and hence the config) untouched. -/
theorem verify_signers_validation_witness :
    (["@alice".data, "@bob".data].all usernameBody = true
      ∧ applyOffline ⟨["@x".data], 1, 365, 60⟩
          (.editSigners [some "bob!".data, some "@y".data] [])
          = applyOffline ⟨["@x".data], 1, 365, 60⟩
              (.editSigners [some "@y".data] [])
      ∧ verify_signers [] = none) :=
  verify_signers_validation "[alice, bob]".data
    ["@alice".data, "@bob".data] "bob!".data
    [some "@y".data] [] ⟨["@x".data], 1, 365, 60⟩
    (by decide) (by decide)

/-- Every successful branch of `_collect_online_keys` yields at least
one key descriptor. -/
theorem collect_online_keys_ne_nil (repo : String) (ch : OnlineKeyChoice)
    (ks : List OnlineKey) (h : collect_online_keys repo ch = some ks) :
    ks ≠ [] := by
  cases ch with
  | sigstore =>
    simp only [collect_online_keys, sigstore_import, List.map_cons,
      Option.some.injEq] at h
    cases h
    simp
  | gcp kid res =>
    simp only [collect_online_keys] at h
    cases res with
    | none => simp at h
    | some p =>
      simp only [Option.some.injEq] at h
      cases h
      simp
  | azure v k res =>
    simp only [collect_online_keys] at h
    cases res with
    | none => simp at h
    | some p =>
      simp only [Option.some.injEq] at h
      cases h
      simp
  | localTestKey =>
    simp only [collect_online_keys, Option.some.injEq] at h
    cases h
    simp

/-- One online menu action preserves non-emptiness of the key list. -/
theorem applyOnline_keys_ne_nil (repo : String) (c c' : OnlineConfig)
    (a : OnlineAction) (hc : c.keys ≠ [])
    (h : applyOnline repo c a = some c') : c'.keys ≠ [] := by
  cases a with
  | editKeys ch =>
    simp only [applyOnline, Option.bind_eq_bind, bind] at h
    cases hk : collect_online_keys repo ch with
    | none => rw [hk] at h; simp at h
    | some ks =>
      rw [hk] at h
      simp only [Option.some_bind, pure, Option.some.injEq] at h
      cases h
      exact collect_online_keys_ne_nil repo ch ks hk
  | editTimestamp eIn gIn =>
    simp only [applyOnline, Option.bind_eq_bind, bind] at h
    cases he : promptInt c.timestamp_expiry eIn with
    | none => rw [he] at h; simp at h
    | some e =>
      rw [he] at h
      simp only [Option.some_bind] at h
      cases hg : promptInt c.timestamp_signing gIn with
      | none => rw [hg] at h; simp at h
      | some g =>
        rw [hg] at h
        simp only [Option.some_bind, pure, Option.some.injEq] at h
        cases h
        exact hc
  | editSnapshot eIn gIn =>
    simp only [applyOnline, Option.bind_eq_bind, bind] at h
    cases he : promptInt c.snapshot_expiry eIn with
    | none => rw [he] at h; simp at h
    | some e =>
      rw [he] at h
      simp only [Option.some_bind] at h
      cases hg : promptInt c.snapshot_signing gIn with
      | none => rw [hg] at h; simp at h
      | some g =>
        rw [hg] at h
        simp only [Option.some_bind, pure, Option.some.injEq] at h
        cases h
        exact hc

/-- C8: The key list of an OnlineKeySet is never empty: every branch of
the key-provider selection (keyless/sigstore import, Google Cloud KMS,
Azure Key Vault, and the fixed test key) returns a non-empty sequence
of key descriptors, so every OnlineKeySet produced by the online editor
or at bootstrap has at least one key (as required by the editor's
display, which reads the first key's locator). -/
theorem online_keys_nonempty (repo : String) (ch : OnlineKeyChoice)
    (ks : List OnlineKey) (c out : OnlineConfig) (acts : List OnlineAction)
    (h1 : collect_online_keys repo ch = some ks)
    (h2 : c.keys ≠ [])
    (h3 : get_online_input repo c acts = some out) :
    ks ≠ [] ∧ out.keys ≠ [] ∧ sigstore_import repo ≠ [] := by
  refine ⟨collect_online_keys_ne_nil repo ch ks h1, ?_, by simp [sigstore_import]⟩
  clear h1
  induction acts generalizing c with
  | nil =>
    simp only [get_online_input, List.foldlM_nil] at h3
    cases h3
    exact h2
  | cons a as ih =>
    simp only [get_online_input, List.foldlM_cons] at h3
    cases ha : applyOnline repo c a with
    | none => rw [ha] at h3; simp at h3
    | some c' =>
      rw [ha] at h3
      simp only [Option.bind_eq_bind, Option.some_bind] at h3
      exact ih c' (applyOnline_keys_ne_nil repo c c' a h2 ha) h3

/-- C8 witness: a key collection via the hidden test-key branch and an
online-editor run that reconfigures the key source via sigstore. -/
theorem online_keys_nonempty_witness :
    ([(⟨"fa47289", "ed25519", "ed25519",
        [("public",
          "fa472895c9756c2b9bcd1440bf867d0fa5c4edee79e9792fa9822be3dd6fcbb3")],
        "envvar:LOCAL_TESTING_KEY"⟩ : OnlineKey)] : List OnlineKey) ≠ []
    ∧ (⟨sigstore_import "o/r", 2, 1, 365, 60⟩ : OnlineConfig).keys ≠ []
    ∧ sigstore_import "o/r" ≠ [] :=
  online_keys_nonempty "o/r" .localTestKey
    [(⟨"fa47289", "ed25519", "ed25519",
        [("public",
          "fa472895c9756c2b9bcd1440bf867d0fa5c4edee79e9792fa9822be3dd6fcbb3")],
        "envvar:LOCAL_TESTING_KEY"⟩ : OnlineKey)]
    ⟨[⟨"k", "t", "s", [], "u"⟩], 2, 1, 365, 60⟩
    ⟨sigstore_import "o/r", 2, 1, 365, 60⟩
    [.editKeys .sigstore]
    (by decide) (by decide) rfl

/-- C7 counterexample: starting from positive periods, entering `-3` at
the expiry prompt is accepted by the `type=int` prompt, so the editor
returns a config whose expiry period is not positive. -/
theorem periods_accept_nonpositive_cex :
    get_offline_input ⟨["@a".data], 1, 365, 60⟩
        [.editPeriods [some (-3)] [none]]
      = some ⟨["@a".data], 1, -3, 60⟩
    ∧ ¬(0 < (-3 : Int)) := by decide

/-- The period inputs of one offline action are all positive (an empty
line, i.e. accepting the default, counts as positive). -/
def posPeriodInputs : OfflineAction → Bool
  | .editSigners _ _ => true
  | .editPeriods eIn gIn =>
    (eIn.all fun i => decide ((0 : Int) < i.getD 1))
      && (gIn.all fun i => decide ((0 : Int) < i.getD 1))

/-- The period inputs of one online action are all positive. -/
def posPeriodInputsOnline : OnlineAction → Bool
  | .editKeys _ => true
  | .editTimestamp eIn gIn =>
    (eIn.all fun i => decide ((0 : Int) < i.getD 1))
      && (gIn.all fun i => decide ((0 : Int) < i.getD 1))
  | .editSnapshot eIn gIn =>
    (eIn.all fun i => decide ((0 : Int) < i.getD 1))
      && (gIn.all fun i => decide ((0 : Int) < i.getD 1))

/-- A `type=int` prompt returns a positive value when its default is
positive and every typed candidate is positive. -/
theorem promptInt_pos (d : Int) (ins : List (Option Int)) (v : Int)
    (hd : 0 < d)
    (hin : ins.all (fun i => decide ((0 : Int) < i.getD 1)) = true)
    (h : promptInt d ins = some v) : 0 < v := by
  cases ins with
  | nil => simp [promptInt] at h
  | cons i rest =>
    simp only [promptInt, Option.some.injEq] at h
    subst h
    simp only [List.all_cons, Bool.and_eq_true, decide_eq_true_eq] at hin
    cases i with
    | none => exact hd
    | some n => simpa using hin.1

/-- One offline menu action keeps both periods positive when its typed
period inputs are positive. -/
theorem applyOffline_periods_pos (c c' : OfflineConfig) (a : OfflineAction)
    (h1 : 0 < c.expiry_period) (h2 : 0 < c.signing_period)
    (ha : posPeriodInputs a = true) (h : applyOffline c a = some c') :
    0 < c'.expiry_period ∧ 0 < c'.signing_period := by
  cases a with
  | editSigners sIn tIn =>
    simp only [applyOffline, Option.bind_eq_bind, bind] at h
    cases hs : promptSigners (joinCommaSpace c.signers) sIn with
    | none => rw [hs] at h; simp at h
    | some l =>
      rw [hs] at h
      simp only [Option.some_bind] at h
      by_cases hlen : l.length = 1
      · rw [if_pos hlen] at h
        cases h
        exact ⟨h1, h2⟩
      · rw [if_neg hlen] at h
        cases ht : promptIntRange 1 (l.length : Int) c.threshold tIn with
        | none => rw [ht] at h; simp at h
        | some t =>
          rw [ht] at h
          simp only [Option.some_bind, pure, Option.some.injEq] at h
          cases h
          exact ⟨h1, h2⟩
  | editPeriods eIn gIn =>
    simp only [posPeriodInputs, Bool.and_eq_true] at ha
    simp only [applyOffline, Option.bind_eq_bind, bind] at h
    cases he : promptInt c.expiry_period eIn with
    | none => rw [he] at h; simp at h
    | some e =>
      rw [he] at h
      simp only [Option.some_bind] at h
      cases hg : promptInt c.signing_period gIn with
      | none => rw [hg] at h; simp at h
      | some g =>
        rw [hg] at h
        simp only [Option.some_bind, pure, Option.some.injEq] at h
        cases h
        exact ⟨promptInt_pos _ _ _ h1 ha.1 he, promptInt_pos _ _ _ h2 ha.2 hg⟩

/-- One online menu action keeps all four cadence fields positive when
its typed period inputs are positive. -/
theorem applyOnline_periods_pos (repo : String) (c c' : OnlineConfig)
    (a : OnlineAction)
    (h1 : 0 < c.timestamp_expiry) (h2 : 0 < c.timestamp_signing)
    (h3 : 0 < c.snapshot_expiry) (h4 : 0 < c.snapshot_signing)
    (ha : posPeriodInputsOnline a = true) (h : applyOnline repo c a = some c') :
    0 < c'.timestamp_expiry ∧ 0 < c'.timestamp_signing
      ∧ 0 < c'.snapshot_expiry ∧ 0 < c'.snapshot_signing := by
  cases a with
  | editKeys ch =>
    simp only [applyOnline, Option.bind_eq_bind, bind] at h
    cases hk : collect_online_keys repo ch with
    | none => rw [hk] at h; simp at h
    | some ks =>
      rw [hk] at h
      simp only [Option.some_bind, pure, Option.some.injEq] at h
      cases h
      exact ⟨h1, h2, h3, h4⟩
  | editTimestamp eIn gIn =>
    simp only [posPeriodInputsOnline, Bool.and_eq_true] at ha
    simp only [applyOnline, Option.bind_eq_bind, bind] at h
    cases he : promptInt c.timestamp_expiry eIn with
    | none => rw [he] at h; simp at h
    | some e =>
      rw [he] at h
      simp only [Option.some_bind] at h
      cases hg : promptInt c.timestamp_signing gIn with
      | none => rw [hg] at h; simp at h
      | some g =>
        rw [hg] at h
        simp only [Option.some_bind, pure, Option.some.injEq] at h
        cases h
        exact ⟨promptInt_pos _ _ _ h1 ha.1 he,
          promptInt_pos _ _ _ h2 ha.2 hg, h3, h4⟩
  | editSnapshot eIn gIn =>
    simp only [posPeriodInputsOnline, Bool.and_eq_true] at ha
    simp only [applyOnline, Option.bind_eq_bind, bind] at h
    cases he : promptInt c.snapshot_expiry eIn with
    | none => rw [he] at h; simp at h
    | some e =>
      rw [he] at h
      simp only [Option.some_bind] at h
      cases hg : promptInt c.snapshot_signing gIn with
      | none => rw [hg] at h; simp at h
      | some g =>
        rw [hg] at h
        simp only [Option.some_bind, pure, Option.some.injEq] at h
        cases h
        exact ⟨h1, h2, promptInt_pos _ _ _ h3 ha.1 he,
          promptInt_pos _ _ _ h4 ha.2 hg⟩

/-- C7 amended: the period-edit prompts accept arbitrary integers with
no positivity validation; starting from a config with positive periods,
the returned config's period fields are positive provided every period
value the user actually types is positive (accepting the default with
an empty line preserves positivity). -/
theorem periods_positive_for_positive_inputs
    (c out : OfflineConfig) (acts : List OfflineAction)
    (oc oout : OnlineConfig) (repo : String) (oacts : List OnlineAction)
    (h1 : 0 < c.expiry_period) (h2 : 0 < c.signing_period)
    (h3 : acts.all posPeriodInputs = true)
    (h4 : get_offline_input c acts = some out)
    (h5 : 0 < oc.timestamp_expiry) (h6 : 0 < oc.timestamp_signing)
    (h7 : 0 < oc.snapshot_expiry) (h8 : 0 < oc.snapshot_signing)
    (h9 : oacts.all posPeriodInputsOnline = true)
    (h10 : get_online_input repo oc oacts = some oout) :
    (0 < out.expiry_period ∧ 0 < out.signing_period)
    ∧ (0 < oout.timestamp_expiry ∧ 0 < oout.timestamp_signing
       ∧ 0 < oout.snapshot_expiry ∧ 0 < oout.snapshot_signing) := by
  constructor
  · clear h5 h6 h7 h8 h9 h10
    induction acts generalizing c with
    | nil =>
      simp only [get_offline_input, List.foldlM_nil] at h4
      cases h4
      exact ⟨h1, h2⟩
    | cons a as ih =>
      simp only [List.all_cons, Bool.and_eq_true] at h3
      simp only [get_offline_input, List.foldlM_cons] at h4
      cases hs : applyOffline c a with
      | none => rw [hs] at h4; simp at h4
      | some c' =>
        rw [hs] at h4
        simp only [Option.bind_eq_bind, Option.some_bind] at h4
        obtain ⟨p1, p2⟩ := applyOffline_periods_pos c c' a h1 h2 h3.1 hs
        exact ih c' p1 p2 h3.2 h4
  · clear h1 h2 h3 h4
    induction oacts generalizing oc with
    | nil =>
      simp only [get_online_input, List.foldlM_nil] at h10
      cases h10
      exact ⟨h5, h6, h7, h8⟩
    | cons a as ih =>
      simp only [List.all_cons, Bool.and_eq_true] at h9
      simp only [get_online_input, List.foldlM_cons] at h10
      cases hs : applyOnline repo oc a with
      | none => rw [hs] at h10; simp at h10
      | some oc' =>
        rw [hs] at h10
        simp only [Option.bind_eq_bind, Option.some_bind] at h10
        obtain ⟨p1, p2, p3, p4⟩ :=
          applyOnline_periods_pos repo oc oc' a h5 h6 h7 h8 h9.1 hs
        exact ih oc' p1 p2 p3 p4 h9.2 h10

/-- C7 amended witness: concrete positive period edits through both
editors. -/
theorem periods_positive_for_positive_inputs_witness :
    ((0 : Int) < (⟨["@a".data], 1, 30, 7⟩ : OfflineConfig).expiry_period
      ∧ (0 : Int) < (⟨["@a".data], 1, 30, 7⟩ : OfflineConfig).signing_period)
    ∧ ((0 : Int) < (⟨[⟨"k", "t", "s", [], "u"⟩], 3, 1, 365, 60⟩ : OnlineConfig).timestamp_expiry
      ∧ (0 : Int) < (⟨[⟨"k", "t", "s", [], "u"⟩], 3, 1, 365, 60⟩ : OnlineConfig).timestamp_signing
      ∧ (0 : Int) < (⟨[⟨"k", "t", "s", [], "u"⟩], 3, 1, 365, 60⟩ : OnlineConfig).snapshot_expiry
      ∧ (0 : Int) < (⟨[⟨"k", "t", "s", [], "u"⟩], 3, 1, 365, 60⟩ : OnlineConfig).snapshot_signing) :=
  periods_positive_for_positive_inputs
    ⟨["@a".data], 1, 365, 60⟩ ⟨["@a".data], 1, 30, 7⟩
    [.editPeriods [some 30] [some 7]]
    ⟨[⟨"k", "t", "s", [], "u"⟩], 2, 1, 365, 60⟩
    ⟨[⟨"k", "t", "s", [], "u"⟩], 3, 1, 365, 60⟩
    "r" [.editTimestamp [some 3] [none]]
    (by decide) (by decide) (by decide) (by decide) (by decide)
    (by decide) (by decide) (by decide) (by decide) (by decide)

/-- `dropWhile` is the identity when no character satisfies the
predicate. -/
theorem dropWhile_eq_self_of_all {α : Type} (p : α → Bool) (s : List α)
    (h : ∀ c ∈ s, p c = false) : s.dropWhile p = s := by
  cases s with
  | nil => rfl
  | cons c cs =>
    rw [List.dropWhile_cons_of_neg]
    simp [h c (List.mem_cons_self c cs)]

/-- Python strip is the identity when no character of the string is in
the strip set. -/
theorem pyStrip_eq_self (p : Char → Bool) (s : List Char)
    (h : ∀ c ∈ s, p c = false) : pyStrip p s = s := by
  unfold pyStrip
  rw [dropWhile_eq_self_of_all p s h,
    dropWhile_eq_self_of_all p s.reverse
      (fun c hc => h c (List.mem_reverse.mp hc)),
    List.reverse_reverse]

/-- A character of the username class is not a bracket, not whitespace
and not a comma. -/
theorem userChar_props (c : Char) (h : isUserChar c = true) :
    isBracket c = false ∧ isPySpace c = false ∧ c ≠ ',' := by
  by_cases hdash : c = '-'
  · subst hdash
    exact ⟨rfl, rfl, by decide⟩
  · have hcn : (48 ≤ c.toNat ∧ c.toNat ≤ 57) ∨ (97 ≤ c.toNat ∧ c.toNat ≤ 122)
        ∨ (65 ≤ c.toNat ∧ c.toNat ≤ 90) := by
      simp only [isUserChar, Bool.or_eq_true, Bool.and_eq_true,
        decide_eq_true_eq] at h
      rcases h with ((h | h) | h) | h
      · exact Or.inl h
      · exact Or.inr (Or.inl h)
      · exact Or.inr (Or.inr h)
      · exact absurd h hdash
    refine ⟨?_, ?_, ?_⟩
    · cases hb : isBracket c with
      | false => rfl
      | true =>
        exfalso
        simp only [isBracket, Bool.or_eq_true, decide_eq_true_eq] at hb
        rcases hb with hb | hb
        · have hv : c.toNat = 91 := by subst hb; rfl
          omega
        · have hv : c.toNat = 93 := by subst hb; rfl
          omega
    · cases hb : isPySpace c with
      | false => rfl
      | true =>
        exfalso
        simp only [isPySpace, Bool.or_eq_true, decide_eq_true_eq] at hb
        rcases hb with ((((hb | hb) | hb) | hb) | hb) | hb
        · have hv : c.toNat = 32 := by subst hb; rfl
          omega
        · have hv : c.toNat = 9 := by subst hb; rfl
          omega
        · have hv : c.toNat = 10 := by subst hb; rfl
          omega
        · have hv : c.toNat = 13 := by subst hb; rfl
          omega
        · omega
        · omega
    · intro hb
      have hv : c.toNat = 44 := by subst hb; rfl
      omega

/-- Every character of a matching username is neither a bracket nor
whitespace nor a comma. -/
theorem usernameBody_chars (s : List Char) (h : usernameBody s = true) :
    ∀ c ∈ s, isBracket c = false ∧ isPySpace c = false ∧ c ≠ ',' := by
  cases s with
  | nil => simp [usernameBody] at h
  | cons c rest =>
    simp only [usernameBody, Bool.and_eq_true, decide_eq_true_eq] at h
    obtain ⟨⟨hc, _⟩, hall⟩ := h
    subst hc
    intro x hx
    rcases List.mem_cons.mp hx with hx | hx
    · subst hx
      exact ⟨rfl, rfl, by decide⟩
    · exact userChar_props x (List.all_eq_true.mp hall x hx)

/-- A matching username is non-empty. -/
theorem usernameBody_ne_nil (s : List Char) (h : usernameBody s = true) :
    s ≠ [] := by
  cases s with
  | nil => simp [usernameBody] at h
  | cons c rest => simp

/-- `split(",")` never returns an empty list of pieces. -/
theorem splitComma_ne_nil : ∀ (s : List Char), splitComma s ≠ [] := by
  intro s
  cases s with
  | nil => simp [splitComma]
  | cons c cs =>
    simp only [splitComma]
    split
    · simp
    · split <;> simp

/-- Splitting a string that starts with a non-comma prepends that
character to the first piece. -/
theorem splitComma_cons_ne (c : Char) (hc : ¬(c = ',')) (cs : List Char)
    (t : List Char) (ts : List (List Char)) (h : splitComma cs = t :: ts) :
    splitComma (c :: cs) = (c :: t) :: ts := by
  simp only [splitComma, if_neg hc, h]

/-- A comma-free string splits into the single piece it is. -/
theorem splitComma_no_comma :
    ∀ (s : List Char), (∀ c ∈ s, ¬(c = ',')) → splitComma s = [s] := by
  intro s
  induction s with
  | nil => intro _; rfl
  | cons c cs ih =>
    intro h
    exact splitComma_cons_ne c (h c (List.mem_cons_self c cs)) cs cs []
      (ih fun x hx => h x (List.mem_cons_of_mem c hx))

/-- Splitting a comma-free piece glued by a comma onto a tail yields
the piece followed by the split of the tail. -/
theorem splitComma_append_comma :
    ∀ (a t : List Char), (∀ c ∈ a, ¬(c = ',')) →
      splitComma (a ++ ',' :: t) = a :: splitComma t := by
  intro a
  induction a with
  | nil =>
    intro t _
    simp [splitComma]
  | cons c cs ih =>
    intro t h
    rw [List.cons_append]
    exact splitComma_cons_ne c (h c (List.mem_cons_self c cs)) _ cs
      (splitComma t) (ih t fun x hx => h x (List.mem_cons_of_mem c hx))

/-- An already-normalized handle passes the validation loop body
unchanged. -/
theorem checkSigner_of_username (a : List Char) (h : usernameBody a = true) :
    checkSigner a = some a := by
  have hnsp : ∀ c ∈ a, isPySpace c = false :=
    fun c hc => (usernameBody_chars a h c hc).2.1
  have hstrip : pyStrip isPySpace a = a := pyStrip_eq_self _ _ hnsp
  have hhead : a.head? = some '@' := by
    cases a with
    | nil => simp [usernameBody] at h
    | cons c rest =>
      simp only [usernameBody, Bool.and_eq_true, decide_eq_true_eq] at h
      rw [h.1.1]
      rfl
  simp [checkSigner, hstrip, hhead, reMatchUsername, h]

/-- A leading space is consumed by the whitespace strip, so it does not
affect validation of a piece. -/
theorem checkSigner_cons_space (x : List Char) :
    checkSigner (' ' :: x) = checkSigner x := by
  simp only [checkSigner, pyStrip,
    List.dropWhile_cons_of_pos (show isPySpace ' ' = true from rfl)]

/-- Every character of a joined signer list is a comma, a space, or a
character of one of the entries. -/
theorem joinCommaSpace_mem :
    ∀ (l : List (List Char)) (c : Char), c ∈ joinCommaSpace l →
      c = ',' ∨ c = ' ' ∨ ∃ s, s ∈ l ∧ c ∈ s := by
  intro l
  induction l with
  | nil => intro c hc; simp [joinCommaSpace] at hc
  | cons a tail ih =>
    cases tail with
    | nil =>
      intro c hc
      exact Or.inr (Or.inr ⟨a, List.mem_cons_self a [], hc⟩)
    | cons b rest =>
      intro c hc
      simp only [joinCommaSpace, List.mem_append, List.mem_cons] at hc
      rcases hc with hc | hc | hc | hc
      · exact Or.inr (Or.inr ⟨a, List.mem_cons_self a (b :: rest), hc⟩)
      · exact Or.inl hc
      · exact Or.inr (Or.inl hc)
      · rcases ih c hc with h | h | ⟨s, hs, hcs⟩
        · exact Or.inl h
        · exact Or.inr (Or.inl h)
        · exact Or.inr (Or.inr ⟨s, List.mem_cons_of_mem a hs, hcs⟩)

/-- The validation loop maps the split of a joined list of handles back
to exactly that list. -/
theorem checkAll_splitComma_join :
    ∀ (l : List (List Char)), l ≠ [] → (∀ s ∈ l, usernameBody s = true) →
      checkAll (splitComma (joinCommaSpace l)) = some l := by
  intro l
  induction l with
  | nil => intro h; exact absurd rfl h
  | cons a tail ih =>
    intro _ hall
    have ha : usernameBody a = true := hall a (List.mem_cons_self a tail)
    have hachars := usernameBody_chars a ha
    cases tail with
    | nil =>
      simp only [joinCommaSpace]
      rw [splitComma_no_comma a (fun c hc => (hachars c hc).2.2)]
      simp [checkAll, checkSigner_of_username a ha]
    | cons b rest =>
      simp only [joinCommaSpace]
      rw [splitComma_append_comma a _ (fun c hc => (hachars c hc).2.2)]
      obtain ⟨t0, ts, hts⟩ :
          ∃ t0 ts, splitComma (joinCommaSpace (b :: rest)) = t0 :: ts := by
        cases hsc : splitComma (joinCommaSpace (b :: rest)) with
        | nil => exact absurd hsc (splitComma_ne_nil _)
        | cons t0 ts => exact ⟨t0, ts, rfl⟩
      rw [splitComma_cons_ne ' ' (by decide) _ t0 ts hts]
      have hih := ih (by simp)
        (fun s hs => hall s (List.mem_cons_of_mem a hs))
      rw [hts] at hih
      simp only [checkAll, checkSigner_of_username a ha, Option.some_bind,
        checkSigner_cons_space]
      simp only [checkAll] at hih
      rw [hih]
      rfl

/-- C10: Signer-list parsing is a round-trip on already-normalized
lists: for every non-empty list of handles each matching
`@[A-Za-z0-9-]+`, applying the signer validation function to the string
obtained by joining the list with `", "` (the form the editor displays
and offers as the prompt default) returns exactly the same list. -/
theorem signers_roundtrip (l : List (List Char)) (h1 : l ≠ [])
    (h2 : l.all usernameBody = true) :
    verify_signers (joinCommaSpace l) = some l := by
  have hall : ∀ s ∈ l, usernameBody s = true :=
    fun s hs => List.all_eq_true.mp h2 s hs
  have hnb : ∀ c ∈ joinCommaSpace l, isBracket c = false := by
    intro c hc
    rcases joinCommaSpace_mem l c hc with h | h | ⟨s, hs, hcs⟩
    · subst h; rfl
    · subst h; rfl
    · exact (usernameBody_chars s (hall s hs) c hcs).1
  have hne : joinCommaSpace l ≠ [] := by
    cases l with
    | nil => exact absurd rfl h1
    | cons a tail =>
      have hna : a ≠ [] :=
        usernameBody_ne_nil a (hall a (List.mem_cons_self a tail))
      cases tail with
      | nil => exact hna
      | cons b rest =>
        simp only [joinCommaSpace, ne_eq, List.append_eq_nil]
        intro hcon
        exact hna hcon.1
  simp only [verify_signers, pyStrip_eq_self isBracket _ hnb]
  rw [if_neg (by simpa using hne)]
  exact checkAll_splitComma_join l h1 hall

/-- C10 witness: the displayed form of `["@alice", "@b-2"]` parses back
to exactly that list. -/
theorem signers_roundtrip_witness :
    verify_signers (joinCommaSpace ["@alice".data, "@b-2".data])
      = some ["@alice".data, "@b-2".data] :=
  signers_roundtrip ["@alice".data, "@b-2".data] (by decide) (by decide)
